import Mathlib

/-!
Shallow embedding of the telegrama-rs library (files src/error.rs,
src/formatter.rs, src/configuration.rs, src/client.rs) and verification of
the specified properties of its formatting engine and delivery cascade.

Modelling conventions:
* a Rust `String`/`&str` is a `List Char` (`Str` below); Rust byte lengths
  (`str::len`, byte slicing) are recovered through `Char.utf8Size`;
* a Rust panic (index out of range / `usize` underflow) is `Option.none`;
* regular-expression passes of the source (`LINK_REGEX`, `EMAIL_REGEX`,
  `HTML_REGEX`) are embedded as explicit leftmost scanners implementing the
  concrete patterns of the source;
* the HTTP transport is an oracle `Nat → WireOutcome` giving the outcome of
  the n-th wire-level POST of a delivery.
-/

set_option autoImplicit false

/-- Rust strings are modelled as lists of unicode scalar values. -/
abbrev Str := List Char

/-- The backtick character (written via its code point). -/
def btick : Char := Char.ofNat 96

/-- Rust byte length of a string (`str::len`). -/
def byteLen : Str → Nat
  | [] => 0
  | c :: cs => c.utf8Size + byteLen cs

/-- The list of characters whose UTF-8 encoding occupies exactly the first
`n` bytes of the encoding of `l`; `none` when byte index `n` is not a char
boundary or lies beyond the string (Rust slicing `&s[..n]` panics there). -/
def charPrefixOfBytes : Str → Nat → Option Str
  | _, 0 => some []
  | [], _ + 1 => none
  | c :: cs, n + 1 =>
    if h : c.utf8Size ≤ n + 1 then
      (charPrefixOfBytes cs (n + 1 - c.utf8Size)).map (c :: ·)
    else none

/-- error.rs: the `Error` enum (payloads are the formatted message strings;
the opaque `reqwest::Error` of the `Http` variant is modelled by its display
string). -/
inductive Error where
  | Configuration : Str → Error
  | Http : Str → Error
  | Api : Str → Error
  | Formatting : Str → Error
  | Other : Str → Error
deriving DecidableEq

/-- formatter.rs / configuration.rs: `FormattingOptions`. -/
structure FormattingOptions where
  escape_markdown : Bool
  obfuscate_emails : Bool
  escape_html : Bool
  truncate : Option Nat
deriving DecidableEq

/-- configuration.rs: `FormattingOptions::default()`. -/
def FormattingOptions.default : FormattingOptions :=
  { escape_markdown := true, obfuscate_emails := false,
    escape_html := false, truncate := some 4096 }

/-- formatter.rs: `MARKDOWN_SPECIAL_CHARS`, in source order. -/
def MARKDOWN_SPECIAL_CHARS : List Char := "_*[]()~`>#+-=|{}.!".data

namespace Formatter

/-- formatter.rs, `pre_process_links`: attempt to match the regex
`\[([^\]]+)\]\(([^)]+)\)` against the text directly following an opening
`[`.  Returns the label, the target and the remaining input.  The greedy
subpatterns admit no backtracking here: the label is forced to be the run of
non-`]` characters (which must be nonempty and followed by `](`), the target
the run of non-`)` characters (nonempty, followed by `)`). -/
def parseLink (l : Str) : Option (Str × Str × Str) :=
  if l.takeWhile (fun c => c ≠ ']') = [] then none
  else
    match l.dropWhile (fun c => c ≠ ']') with
    | c1 :: c2 :: r2 =>
      if c1 = ']' ∧ c2 = '(' then
        if r2.takeWhile (fun c => c ≠ ')') = [] then none
        else
          match r2.dropWhile (fun c => c ≠ ')') with
          | c3 :: r3 =>
            if c3 = ')' then
              some (l.takeWhile (fun c => c ≠ ']'),
                r2.takeWhile (fun c => c ≠ ')'), r3)
            else none
          | [] => none
      else none
    | _ => none

/-- A successful `parseLink` decomposes its input as
`label ++ "](" ++ target ++ ")" ++ rest` with a nonempty `]`-free label and a
nonempty `)`-free target (the shape forced by `LINK_REGEX`). -/
theorem parseLink_shape {l lab tgt r3 : Str}
    (h : parseLink l = some (lab, tgt, r3)) :
    l = lab ++ ']' :: '(' :: (tgt ++ ')' :: r3) ∧ lab ≠ [] ∧ tgt ≠ []
      ∧ ']' ∉ lab ∧ ')' ∉ tgt := by
  unfold parseLink at h
  split_ifs at h with h0
  revert h
  split
  next c1 c2 r2 hdrop =>
    intro h
    split_ifs at h with h1 h2
    revert h
    split
    next c3 r3' hdrop2 =>
      intro h
      split_ifs at h with h3
      obtain ⟨rfl, rfl, rfl⟩ : lab = l.takeWhile (fun c => c ≠ ']')
          ∧ tgt = r2.takeWhile (fun c => c ≠ ')') ∧ r3 = r3' := by
        simpa [eq_comm] using h
      obtain ⟨rfl, rfl⟩ := h1
      subst h3
      refine ⟨?_, h0, h2, ?_, ?_⟩
      · conv_lhs => rw [← List.takeWhile_append_dropWhile (fun c => c ≠ ']') l]
        rw [hdrop]
        have hr2 : r2 = r2.takeWhile (fun c => c ≠ ')')
            ++ ')' :: r3 := by
          conv_lhs => rw [← List.takeWhile_append_dropWhile (fun c => c ≠ ')') r2]
          rw [hdrop2]
        rw [← hr2]
      · intro hmem
        have := List.mem_takeWhile_imp hmem
        simp at this
      · intro hmem
        have := List.mem_takeWhile_imp hmem
        simp at this
    next => intro h; exact absurd h (by simp)
  next => intro h; exact absurd h (by simp)


theorem parseLink_length {l lab tgt r3 : Str}
    (h : parseLink l = some (lab, tgt, r3)) : r3.length < l.length := by
  have := (parseLink_shape h).1
  have hlen := congrArg List.length this
  simp [List.length_append] at hlen
  omega

/-- formatter.rs, `pre_process_links`: the per-character escaping of a link
label (`link_text.chars().map(...)` collected into a string). -/
def escapeLabelChar (c : Char) : Str :=
  if c ∈ MARKDOWN_SPECIAL_CHARS then ['\\', c] else [c]

/-- formatter.rs, `pre_process_links`: `String::replace` of every occurrence
of `target` by a backslash followed by `target`. -/
def replaceCharEsc (target : Char) (l : Str) : Str :=
  l.flatMap (fun c => if c = target then ['\\', target] else [c])

/-- formatter.rs, `pre_process_links`: the loop over `MARKDOWN_SPECIAL_CHARS`
escaping the URL part, skipping `/`, `:`, `.`, `-`. -/
def escapeUrl (url : Str) : Str :=
  MARKDOWN_SPECIAL_CHARS.foldl
    (fun acc ch =>
      if ch ≠ '/' ∧ ch ≠ ':' ∧ ch ≠ '.' ∧ ch ≠ '-' then replaceCharEsc ch acc
      else acc)
    url

/-- formatter.rs: `pre_process_links`, as a leftmost non-overlapping scan of
`LINK_REGEX` (`\[([^\]]+)\]\(([^)]+)\)`) replacing each complete
`[label](target)` span by the span with escaped label and target. -/
def pre_process_links : Str → Str
  | [] => []
  | c :: rest =>
    if c = '[' then
      match h : parseLink rest with
      | some (label, target, rest') =>
        '[' :: (label.flatMap escapeLabelChar ++ ']' :: '(' :: escapeUrl target
          ++ ')' :: pre_process_links rest')
      | none => '[' :: pre_process_links rest
    else c :: pre_process_links rest
termination_by l => l.length
decreasing_by
  · simp only [List.length_cons]
    have := parseLink_length h
    omega
  · simp
  · simp

/-- formatter.rs, `escape_markdown_v2`: the mutable scan state. -/
structure ScanState where
  in_code_block : Bool
  in_pre_block : Bool
  in_bold : Bool
  in_italic : Bool
  in_link_text : Bool
  in_link_url : Bool
deriving DecidableEq

/-- All-false initial scan state. -/
def ScanState.init : ScanState :=
  ⟨false, false, false, false, false, false⟩

/-- formatter.rs, `escape_markdown_v2`: the character-by-character state
machine (the `while let Some(c) = chars.next()` loop), with the match arms in
source order; a guard that fails falls through to the later arms. -/
def scanMd : Str → ScanState → Str
  | [], _ => []
  | c :: rest, st =>
    if c = btick then
      if st.in_code_block = false ∧ rest.head? = some btick
          ∧ rest.tail.head? = some btick then
        btick :: btick :: btick ::
          scanMd rest.tail.tail { st with in_pre_block := !st.in_pre_block }
      else c :: scanMd rest { st with in_code_block := !st.in_code_block }
    else if c = '*' ∧ st.in_code_block = false ∧ st.in_pre_block = false then
      c :: scanMd rest { st with in_bold := !st.in_bold }
    else if c = '_' ∧ st.in_code_block = false ∧ st.in_pre_block = false then
      c :: scanMd rest { st with in_italic := !st.in_italic }
    else if c = '[' ∧ st.in_code_block = false ∧ st.in_pre_block = false
        ∧ st.in_link_text = false then
      c :: scanMd rest { st with in_link_text := true }
    else if c = ']' ∧ st.in_code_block = false ∧ st.in_pre_block = false
        ∧ st.in_link_text = true then
      c :: scanMd rest
        (if rest.head? = some '(' then
          { st with in_link_text := false, in_link_url := true }
        else { st with in_link_text := false })
    else if c = '(' ∧ st.in_code_block = false ∧ st.in_pre_block = false
        ∧ st.in_link_text = false ∧ st.in_link_url = true then
      c :: scanMd rest st
    else if c = ')' ∧ st.in_code_block = false ∧ st.in_pre_block = false
        ∧ st.in_link_url = true then
      c :: scanMd rest { st with in_link_url := false }
    else if st.in_code_block = false ∧ st.in_pre_block = false
        ∧ st.in_bold = false ∧ st.in_italic = false
        ∧ st.in_link_text = false ∧ st.in_link_url = false
        ∧ c ∈ MARKDOWN_SPECIAL_CHARS then
      '\\' :: c :: scanMd rest st
    else
      c :: scanMd rest st
termination_by l _ => l.length
decreasing_by all_goals simp [List.length_tail] <;> omega

/-- formatter.rs: `escape_markdown_v2` (always returns `Ok` in the source:
no failure path exists after the regex compiles). -/
def escape_markdown_v2 (text : Str) : Except Error Str :=
  if text = [] then .ok []
  else .ok (scanMd (pre_process_links text) ScanState.init)

/-- formatter.rs, `strip_markdown`: the `link_regex.replace_all(_, "$1")`
pass collapsing every complete `[label](target)` span to its label. -/
def stripLinks : Str → Str
  | [] => []
  | c :: rest =>
    if c = '[' then
      match h : parseLink rest with
      | some (label, _target, rest') => label ++ stripLinks rest'
      | none => '[' :: stripLinks rest
    else c :: stripLinks rest
termination_by l => l.length
decreasing_by
  · simp only [List.length_cons]
    have := parseLink_length h
    omega
  · simp
  · simp

/-- formatter.rs: `strip_markdown`. -/
def strip_markdown (text : Str) : Str :=
  stripLinks (text.filter (fun c => ¬(c = '*' ∨ c = '_' ∨ c = btick)))

/-- EMAIL_REGEX character class `[A-Za-z0-9._%+-]` (the local part). -/
def isLocalChar (c : Char) : Bool :=
  c.isAlphanum || c = '.' || c = '_' || c = '%' || c = '+' || c = '-'

/-- EMAIL_REGEX character class `[A-Za-z0-9.-]` (the domain). -/
def isDomainChar (c : Char) : Bool := c.isAlphanum || c = '.' || c = '-'

/-- Regex word character, deciding `\b` boundaries.  (The source's regex
crate uses Unicode word characters; the model uses the ASCII range, which
coincides on every string the email pattern itself can match.) -/
def isWordChar (c : Char) : Bool := c.isAlphanum || c = '_'

/-- EMAIL_REGEX: backtracking search for the `\.[A-Za-z]{2,}\b` suffix
inside the greedy `[A-Za-z0-9.-]+` domain run.  Candidate dots are tried
rightmost-first, exactly as the greedy quantifier gives characters back one
at a time; the `{2,}` quantifier never backtracks past its maximal run
because a shorter alphabetic run cannot satisfy the following `\b`.
Returns `(domainPart, tld, leftover)` with
`dom = domainPart ++ '.' :: tld ++ leftover`; `after` is the character
following the whole domain run (for the final `\b` when the tld reaches the
end of the run). -/
def findSplit : Str → Option Char → Option (Str × Str × Str)
  | [], _ => none
  | c :: cs, after =>
    match findSplit cs after with
    | some (d, tld, rest) => some (c :: d, tld, rest)
    | none =>
      if c = '.' then
        if 2 ≤ (cs.takeWhile Char.isAlpha).length
            ∧ (((cs.dropWhile Char.isAlpha).head?).or after).all
                (fun n => !isWordChar n) = true then
          some ([], cs.takeWhile Char.isAlpha, cs.dropWhile Char.isAlpha)
        else none
      else none

theorem findSplit_shape {l rest : Str} {after : Option Char} {d tld : Str}
    (h : findSplit l after = some (d, tld, rest)) :
    l = d ++ '.' :: (tld ++ rest) := by
  induction l generalizing d tld rest with
  | nil => simp [findSplit] at h
  | cons c cs ih =>
    rw [findSplit] at h
    revert h
    split
    next d' tld' rest' hrec =>
      intro h
      obtain ⟨rfl, rfl, rfl⟩ : d = c :: d' ∧ tld = tld' ∧ rest = rest' := by
        simpa [eq_comm] using h
      simpa using ih hrec
    next =>
      intro h
      split_ifs at h with hc hcond
      obtain ⟨rfl, rfl, rfl⟩ : d = [] ∧ tld = cs.takeWhile Char.isAlpha
          ∧ rest = cs.dropWhile Char.isAlpha := by
        simpa [eq_comm] using h
      subst hc
      simp [List.takeWhile_append_dropWhile]


/-- EMAIL_REGEX: attempt the pattern
`\b[A-Za-z0-9._%+-]+@[A-Za-z0-9.-]+\.[A-Za-z]{2,}\b` at the current
position; `prev` is the character immediately before the position (`none`
at the start of the string), needed for the leading `\b`.  The greedy local
part admits no backtracking: the run of local characters must be followed
by a literal `@`.  Returns `(matchedText, remainingInput)`. -/
def matchEmail (prev : Option Char) (l : Str) : Option (Str × Str) :=
  match l.head? with
  | none => none
  | some c =>
    if (match prev with | none => false | some p => isWordChar p)
        = isWordChar c then none
    else if l.takeWhile isLocalChar = [] then none
    else
      match l.dropWhile isLocalChar with
      | a :: r2 =>
        if a = '@' then
          match findSplit (r2.takeWhile isDomainChar)
              ((r2.dropWhile isDomainChar).head?) with
          | some (d, tld, leftover) =>
            if d = [] then none
            else some (l.takeWhile isLocalChar ++ '@' :: (d ++ '.' :: tld),
              leftover ++ r2.dropWhile isDomainChar)
          | none => none
        else none
      | [] => none

/-- A successful email match decomposes the input as the matched text
followed by the leftover input; the match is
`local ++ "@" ++ domainPart ++ "." ++ tld` with nonempty `@`-free pieces. -/
theorem matchEmail_shape {prev : Option Char} {l m rest : Str}
    (h : matchEmail prev l = some (m, rest)) :
    ∃ u dom, m = u ++ '@' :: dom ∧ l = m ++ rest ∧ u ≠ []
      ∧ (∀ x ∈ u, isLocalChar x) ∧ '@' ∉ dom := by
  unfold matchEmail at h
  revert h
  split
  · intro h; exact absurd h (by simp)
  next c _ =>
    intro h
    split_ifs at h with hb hloc
    revert h
    split
    next a r2 hdrop =>
      intro h
      split_ifs at h with ha
      revert h
      split
      next d tld leftover hsplit =>
        intro h
        split_ifs at h with hd
        obtain ⟨rfl, rfl⟩ : m = l.takeWhile isLocalChar ++ '@' :: (d ++ '.' :: tld)
            ∧ rest = leftover ++ r2.dropWhile isDomainChar := by
          simpa [eq_comm] using h
        have hdom := findSplit_shape hsplit
        refine ⟨l.takeWhile isLocalChar, d ++ '.' :: tld, rfl, ?_, hloc, ?_, ?_⟩
        · have hl : l = l.takeWhile isLocalChar ++ (a :: r2) := by
            conv_lhs => rw [← List.takeWhile_append_dropWhile isLocalChar l]
            rw [hdrop]
          have hr2 : r2 = r2.takeWhile isDomainChar
              ++ r2.dropWhile isDomainChar := by
            rw [List.takeWhile_append_dropWhile]
          subst ha
          conv_lhs => rw [hl]
          conv_lhs => rw [hr2, hdom]
          simp
        · intro x hx
          exact List.mem_takeWhile_imp hx
        · intro hx
          have hxdom : '@' ∈ r2.takeWhile isDomainChar := by
            rw [hdom]
            simp only [List.mem_append, List.mem_cons] at hx ⊢
            rcases hx with h1 | h2 | h3
            · exact Or.inl h1
            · exact Or.inr (Or.inl h2)
            · exact Or.inr (Or.inr (Or.inl h3))
          have := List.mem_takeWhile_imp hxdom
          exact absurd this (by decide)
      next => intro h; exact absurd h (by simp)
    next => intro h; exact absurd h (by simp)

/-- Rust `str::split(sep)` collected into a vector. -/
def splitOnChar (sep : Char) : Str → List Str
  | [] => [[]]
  | c :: cs =>
    if c = sep then [] :: splitOnChar sep cs
    else
      match splitOnChar sep cs with
      | [] => [[c]]
      | h :: t => (c :: h) :: t

/-- formatter.rs, `obfuscate_emails`: the replacement closure applied to one
regex match.  (Rust's `username.len()` and byte slicing agree with character
counts here because every regex match is ASCII.) -/
def obfuscateMatch (email : Str) : Str :=
  let parts := splitOnChar '@' email
  if parts.length ≠ 2 then email
  else
    let username := parts.getD 0 []
    let domain := parts.getD 1 []
    if username.length ≤ 3 then email
    else
      username.take 3 ++ '.' :: '.' :: '.' ::
        (username.drop (username.length - 1) ++ '@' :: domain)

/-- formatter.rs, `obfuscate_emails`: `EMAIL_REGEX.replace_all` — the
leftmost scan replacing each non-overlapping match and resuming immediately
after it (`prev` carries the character before the current position for the
`\b` assertions). -/
def obfuscateScan : Option Char → Str → Str
  | _, [] => []
  | prev, c :: cs =>
    match hm : matchEmail prev (c :: cs) with
    | some (m, rest) => obfuscateMatch m ++ obfuscateScan m.getLast? rest
    | none => c :: obfuscateScan (some c) cs
termination_by _ l => l.length
decreasing_by
  · obtain ⟨u, dom, hmdecomp, hsplit, hu, _, _⟩ := matchEmail_shape hm
    have h1 := congrArg List.length hsplit
    have h2 := congrArg List.length hmdecomp
    have hul : 0 < u.length := List.length_pos.mpr hu
    simp only [List.length_append, List.length_cons] at h1 h2 ⊢
    omega
  · simp

/-- formatter.rs: `obfuscate_emails`. -/
def obfuscate_emails (text : Str) : Str := obfuscateScan none text

/-- formatter.rs: `escape_html` (the `HTML_REGEX` pattern `[<>&]` is a
single-character alternation, so `replace_all` is a per-character map). -/
def escape_html (text : Str) : Str :=
  text.flatMap (fun c =>
    if c = '<' then "&lt;".data
    else if c = '>' then "&gt;".data
    else if c = '&' then "&amp;".data
    else [c])

/-- formatter.rs: `truncate`.  `none` models a Rust panic: a byte index that
is not a char boundary, or the `max_length - 3` underflow (debug builds
panic on the subtraction; release builds wrap and then panic on the
out-of-range slice). -/
def truncate (text : Str) (max_length : Nat) : Option Str :=
  if byteLen text ≤ max_length then some text
  else
    match charPrefixOfBytes text max_length with
    | none => none
    | some sliced =>
      match beforeLastSpace sliced with
      | some before => some (before ++ "...".data)
      | none =>
        if max_length < 3 then none
        else
          match charPrefixOfBytes text (max_length - 3) with
          | none => none
          | some sliced2 => some (sliced2 ++ "...".data)
where
  /-- The part of the string strictly before its last space character, i.e.
  `&text[..last_space]` for `last_space = text.rfind(' ')`; `none` when the
  string has no space.  (A space is a single UTF-8 byte, so the byte-level
  `rfind(' ')` of the source coincides with the character-level search.) -/
  beforeLastSpace : Str → Option Str
    | [] => none
    | c :: cs =>
      match beforeLastSpace cs with
      | some r => some (c :: r)
      | none => if c = ' ' then some [] else none

end Formatter

/-- configuration.rs: `ClientOptions`. -/
structure ClientOptions where
  timeout : Nat
  retry_count : Nat
  retry_delay : Nat
deriving DecidableEq

/-- configuration.rs: `ClientOptions::default()`. -/
def ClientOptions.default : ClientOptions := ⟨30, 3, 1⟩

/-- configuration.rs: `Configuration` — the process-wide settings.  The
embedding passes the copied-out snapshot (`get_cloned_instance`) explicitly
wherever the source reads the global singleton.  The source field
`message_prefix` is named `message_pre` here (a file-level naming
constraint); `message_suffix` keeps its name. -/
structure Configuration where
  bot_token : Option Str
  chat_id : Option Str
  default_parse_mode : Option Str
  disable_web_page_preview : Bool
  message_pre : Option Str
  message_suffix : Option Str
  formatting_options : FormattingOptions
  client_options : ClientOptions
deriving DecidableEq

/-- configuration.rs: `Configuration::default()`. -/
def Configuration.default : Configuration :=
  { bot_token := none, chat_id := none,
    default_parse_mode := some "MarkdownV2".data,
    disable_web_page_preview := true,
    message_pre := none, message_suffix := none,
    formatting_options := FormattingOptions.default,
    client_options := ClientOptions.default }

/-- configuration.rs: `Configuration::validate`. -/
def Configuration.validate (cfg : Configuration) : Except Error Unit :=
  match cfg.bot_token with
  | none => .error (.Configuration "Bot token not configured".data)
  | some _ =>
    match cfg.default_parse_mode with
    | some mode =>
      if mode = [] ∨ (mode ≠ "MarkdownV2".data ∧ mode ≠ "HTML".data) then
        .error (.Configuration ("Invalid parse mode: '".data ++ mode
          ++ "'. Must be 'MarkdownV2' or 'HTML'".data))
      else .ok ()
    | none => .ok ()

namespace Formatter

/-- formatter.rs: `Formatter::format`.  The configuration argument is the
snapshot that `Configuration::get_cloned_instance` returns (that accessor
never fails — on lock contention it yields the default configuration — so
the source's early-return error branch is dead and `format`'s only failure
mode is a panic inside `truncate`, modelled by `none`). -/
def format (cfg : Configuration) (text : Str)
    (formatting_options : Option FormattingOptions) : Option Str :=
  let options := formatting_options.getD cfg.formatting_options
  let t1 := match cfg.message_pre with
    | some p => p ++ text
    | none => text
  let t2 := match cfg.message_suffix with
    | some s => t1 ++ s
    | none => t1
  let t3 := if options.escape_html then escape_html t2 else t2
  let t4 := if options.obfuscate_emails then obfuscate_emails t3 else t3
  let t5 := if options.escape_markdown then
      match escape_markdown_v2 t4 with
      | .ok escaped => escaped
      | .error _ => strip_markdown t4
    else t4
  match options.truncate with
  | some max_length => truncate t5 max_length
  | none => some t5

end Formatter

/-- client.rs: the deserialized Telegram API `Response` (the opaque
`serde_json::Value` payload of `result` is modelled as an uninterpreted
string). -/
structure Response where
  ok : Bool
  description : Option Str
  result : Option Str
deriving DecidableEq

/-- client.rs: one wire-level POST — the URL and the JSON body
`SendMessageParams`. -/
structure WireRequest where
  url : Str
  chat_id : Str
  text : Str
  parse_mode : Option Str
  disable_web_page_preview : Option Bool
deriving DecidableEq

deriving instance DecidableEq for Except

/-- The transport-level outcome of one `client.post(url).json(params).send()`
call: a transport error (reqwest `Err`, carrying its display string), or an
HTTP response carrying the status code, the body text (`none` when
`resp.text()` fails) and the JSON-decoded body (`Except` error = serde
failure message). -/
inductive WireOutcome where
  | sendErr : Str → WireOutcome
  | resp : Nat → Option Str → Except Str Response → WireOutcome
deriving DecidableEq

/-- Rust `str::contains` with a string pattern (substring test). -/
def containsSub (hay needle : Str) : Bool :=
  hay.tails.any (fun t => needle.isPrefixOf t)

/-- Rust `str::to_lowercase` (ASCII range; the option values compared are
ASCII literals). -/
def toLowerStr (l : Str) : Str := l.map Char.toLower

/-- Rust `value.parse::<usize>()` — an optional `+` sign followed by one or
more ASCII digits (the `usize` overflow failure of out-of-range literals is
not modelled). -/
def parseUsize (l : Str) : Option Nat :=
  let ds := if l.head? = some '+' then l.tail else l
  if ds ≠ [] ∧ ds.all Char.isDigit then
    some (ds.foldl (fun n c => n * 10 + (c.toNat - 48)) 0)
  else none

/-- Lookup of a key in the options array (`options.iter().find(..)`), first
occurrence wins. -/
def findOption (options : List (Str × Str)) (key : String) : Option Str :=
  (options.find? (fun kv => kv.1 == key.data)).map (fun kv => kv.2)

namespace Client

/-- client.rs: `Client::handle_response` on a decoded HTTP response. -/
def handle_response (status : Nat) (bodyText : Option Str)
    (json : Except Str Response) : Except Error Response :=
  if ¬(200 ≤ status ∧ status < 300) then
    .error (.Api ("HTTP error (status ".data ++ (toString status).data
      ++ "): ".data ++ bodyText.getD "Unable to read response body".data))
  else
    match json with
    | .error e => .error (.Api ("Failed to parse API response: ".data ++ e))
    | .ok tr =>
      if tr.ok = false then
        .error (.Api (tr.description.getD "Unknown API error".data))
      else .ok tr

/-- client.rs: `Client::send_message_request` over the wire oracle; `k` is
the index of the next wire-level POST.  Returns the outcome, the list of
wire requests issued, and the next wire index.  The source POSTs, reads the
response body for debugging (discarding it, whether the read succeeds or
fails), then POSTs the identical request again and computes the result from
the second response only. -/
def send_message_request (wire : Nat → WireOutcome) (k : Nat)
    (bot_token chat_id text : Str) (parse_mode : Option Str)
    (disable_web_page_preview : Bool) :
    Except Error Response × List WireRequest × Nat :=
  let url := "https://api.telegram.org/bot".data ++ bot_token
    ++ "/sendMessage".data
  let effective_parse_mode : Option Str :=
    match parse_mode with
    | some mode =>
      if mode = [] then some []
      else if mode ≠ "MarkdownV2".data ∧ mode ≠ "HTML".data then some []
      else some mode
    | none => some []
  let params : WireRequest :=
    ⟨url, chat_id, text, effective_parse_mode, some disable_web_page_preview⟩
  match wire k with
  | .sendErr e => (.error (.Http e), [params], k + 1)
  | .resp _ _ _ =>
    match wire (k + 1) with
    | .sendErr e => (.error (.Http e), [params, params], k + 2)
    | .resp status2 body2 json2 =>
      (handle_response status2 body2 json2, [params, params], k + 2)

/-- client.rs: `Client::extract_formatting_options`. -/
def extract_formatting_options (options : List (Str × Str))
    (dflt : FormattingOptions) : FormattingOptions :=
  options.foldl
    (fun fo kv =>
      if kv.1 = "escape_markdown".data then
        { fo with escape_markdown := toLowerStr kv.2 == "true".data }
      else if kv.1 = "obfuscate_emails".data then
        { fo with obfuscate_emails := toLowerStr kv.2 == "true".data }
      else if kv.1 = "escape_html".data then
        { fo with escape_html := toLowerStr kv.2 == "true".data }
      else if kv.1 = "truncate".data then
        { fo with truncate := parseUsize kv.2 }
      else fo)
    dflt

/-- client.rs, `send_message`: chat-id resolution — option override, else
the configured default, else empty (the caller then rejects an empty id). -/
def resolve_chat_id (cfg : Configuration) (options : List (Str × Str)) : Str :=
  match findOption options "chat_id" with
  | some v => v
  | none =>
    match cfg.chat_id with
    | some id => id
    | none => []

/-- client.rs, `send_message`: parse-mode resolution — option override, else
the configured default; a value other than `MarkdownV2`/`HTML`/empty is
cleared to `none` ("Fix invalid parse mode to avoid API errors"). -/
def resolve_parse_mode (cfg : Configuration)
    (options : List (Str × Str)) : Option Str :=
  match (findOption options "parse_mode").or cfg.default_parse_mode with
  | some mode =>
    if mode ≠ "MarkdownV2".data ∧ mode ≠ "HTML".data ∧ mode ≠ [] then none
    else some mode
  | none => none

/-- client.rs, `send_message`: web-page-preview resolution. -/
def resolve_preview (cfg : Configuration) (options : List (Str × Str)) : Bool :=
  match findOption options "disable_web_page_preview" with
  | some v => toLowerStr v == "true".data
  | none => cfg.disable_web_page_preview

/-- client.rs, `send_message`: formatting options for the plain-text tier. -/
def plain_options (fo : FormattingOptions) : FormattingOptions :=
  { escape_markdown := false, escape_html := false,
    obfuscate_emails := fo.obfuscate_emails, truncate := fo.truncate }

/-- client.rs, `send_message`: formatting options for the HTML tier. -/
def html_options (fo : FormattingOptions) : FormattingOptions :=
  { escape_markdown := false, escape_html := true,
    obfuscate_emails := fo.obfuscate_emails, truncate := fo.truncate }

/-- client.rs, `send_message`: formatting options for the MarkdownV2 tier. -/
def markdown_options (fo : FormattingOptions) : FormattingOptions :=
  { escape_markdown := true, escape_html := false,
    obfuscate_emails := fo.obfuscate_emails, truncate := fo.truncate }

/-- client.rs, `send_message`: the `match parse_mode` block formatting the
message for the resolved dialect. -/
def format_for_mode (cfg : Configuration) (message : Str)
    (fo : FormattingOptions) (parse_mode : Option Str) : Option Str :=
  if parse_mode = some "MarkdownV2".data then
    Formatter.format cfg message (some (markdown_options fo))
  else if parse_mode = some "HTML".data then
    Formatter.format cfg message (some (html_options fo))
  else
    Formatter.format cfg message (some (plain_options fo))

/-- One logical submission (tier) of a delivery: the formatted text and the
`parse_mode` argument handed to `send_message_request`. -/
structure Attempt where
  text : Str
  parse_mode : Option Str
deriving DecidableEq

/-- client.rs: `Client::send_message` over the wire oracle, additionally
returning the list of logical submissions performed.  `none` models a panic
(only possible inside `Formatter::truncate`). -/
def send_message (cfg : Configuration) (wire : Nat → WireOutcome)
    (message : Str) (options : List (Str × Str)) :
    Option (Except Error Response × List Attempt) :=
  match cfg.validate with
  | .error e => some (.error e, [])
  | .ok _ =>
  match cfg.bot_token with
  | none => some (.error (.Configuration "Bot token not configured".data), [])
  | some bot_token =>
  if resolve_chat_id cfg options = [] then
    some (.error (.Configuration "Chat ID not provided".data), [])
  else
    match format_for_mode cfg message
        (extract_formatting_options options cfg.formatting_options)
        (resolve_parse_mode cfg options) with
    | none => none
    | some formatted_message =>
    if formatted_message = [] then
      some (.error (.Formatting "Message is empty after formatting".data), [])
    else
      let fo := extract_formatting_options options cfg.formatting_options
      let parse_mode := resolve_parse_mode cfg options
      let dwp := resolve_preview cfg options
      let chat_id := resolve_chat_id cfg options
      let res1 := send_message_request wire 0 bot_token chat_id
        formatted_message parse_mode dwp
      let a1 : Attempt := ⟨formatted_message, parse_mode⟩
      match res1.1 with
      | .ok response => some (.ok response, [a1])
      | .error e =>
        if (match e with
            | .Api desc => containsSub desc "parse_mode".data
            | _ => false) then
          match Formatter.format cfg message (some (plain_options fo)) with
          | none => none
          | some plain_message =>
            let res2 := send_message_request wire res1.2.2 bot_token chat_id
              plain_message none dwp
            some (res2.1, [a1, ⟨plain_message, none⟩])
        else if parse_mode = some "MarkdownV2".data then
          match Formatter.format cfg message (some (html_options fo)) with
          | none => none
          | some html_message =>
            let res2 := send_message_request wire res1.2.2 bot_token chat_id
              html_message (some "HTML".data) dwp
            match res2.1 with
            | .ok response =>
              some (.ok response, [a1, ⟨html_message, some "HTML".data⟩])
            | .error _ =>
              match Formatter.format cfg message
                  (some (plain_options fo)) with
              | none => none
              | some plain_message =>
                let res3 := send_message_request wire res2.2.2 bot_token
                  chat_id plain_message none dwp
                some (res3.1, [a1, ⟨html_message, some "HTML".data⟩,
                  ⟨plain_message, none⟩])
        else some (.error e, [a1])

end Client

/- The scanners above are compiled by well-founded recursion; unseal them so
that concrete instances evaluate by `decide`. -/
unseal Formatter.scanMd Formatter.pre_process_links Formatter.stripLinks
unseal Formatter.obfuscateScan

/-! ## Auxiliary lemmas about byte lengths and truncation -/

theorem byteLen_append (a b : Str) :
    byteLen (a ++ b) = byteLen a + byteLen b := by
  induction a with
  | nil => simp [byteLen]
  | cons c cs ih => simp [byteLen, ih]; omega

theorem byteLen_of_single {l : Str} (hs : ∀ c ∈ l, c.utf8Size = 1) :
    byteLen l = l.length := by
  induction l with
  | nil => rfl
  | cons c cs ih =>
    have hc : c.utf8Size = 1 := hs c (by simp)
    simp [byteLen, hc, ih (fun x hx => hs x (by simp [hx]))]
    omega

theorem charPrefixOfBytes_of_single {l : Str} {n : Nat}
    (hs : ∀ c ∈ l, c.utf8Size = 1) (hn : n ≤ l.length) :
    charPrefixOfBytes l n = some (l.take n) := by
  induction l generalizing n with
  | nil =>
    have : n = 0 := by simpa using hn
    subst this
    rfl
  | cons c cs ih =>
    cases n with
    | zero => rfl
    | succ m =>
      have hc : c.utf8Size = 1 := hs c (by simp)
      rw [charPrefixOfBytes]
      simp [hc, ih (fun x hx => hs x (by simp [hx])) (by simpa using hn)]

theorem beforeLastSpace_shape {l b : Str}
    (h : Formatter.truncate.beforeLastSpace l = some b) :
    ∃ r, l = b ++ ' ' :: r := by
  induction l generalizing b with
  | nil => simp [Formatter.truncate.beforeLastSpace] at h
  | cons c cs ih =>
    rw [Formatter.truncate.beforeLastSpace] at h
    revert h
    split
    next r hrec =>
      intro h
      obtain rfl : b = c :: r := by simpa [eq_comm] using h
      obtain ⟨r', hr'⟩ := ih hrec
      exact ⟨r', by simp [hr']⟩
    next hrec =>
      intro h
      split_ifs at h with hc
      obtain rfl : b = [] := by simpa [eq_comm] using h
      exact ⟨cs, by simp [hc]⟩

/-! ## C10: partiality of truncate -/

/-- C10: `truncate` is not total — `truncate "abcdef" 2` panics (the slice
has no space among its first 2 bytes and `max_length - 3` underflows,
modelled by `none`); under the precondition `3 ≤ max_length` and a text of
single-byte characters, `truncate` always returns a string. -/
theorem truncate_partiality :
    Formatter.truncate "abcdef".data 2 = none
      ∧ ∀ (text : Str) (max_length : Nat), 3 ≤ max_length →
          (∀ c ∈ text, c.utf8Size = 1) →
          (Formatter.truncate text max_length).isSome := by
  constructor
  · decide
  · intro text max_length h3 hs
    unfold Formatter.truncate
    rcases le_or_lt (byteLen text) max_length with hle | hgt
    · rw [if_pos hle]; rfl
    · rw [if_neg (by omega)]
      have hlt : max_length < text.length := by
        rw [byteLen_of_single hs] at hgt
        omega
      rw [charPrefixOfBytes_of_single hs (by omega)]
      cases hbls : Formatter.truncate.beforeLastSpace (text.take max_length) with
      | some b => simp [hbls]
      | none =>
        have hn3 : ¬ max_length < 3 := by omega
        simp [hbls, hn3,
          charPrefixOfBytes_of_single hs (show max_length - 3 ≤ text.length by omega)]

/-- C10 witness: the theorem applied at a concrete single-byte text and
limit. -/
theorem truncate_partiality_witness :
    (Formatter.truncate "abcdefghij".data 6).isSome :=
  truncate_partiality.2 "abcdefghij".data 6 (by decide) (by decide)

/-! ## C1: truncation behaviour -/

/-- C1 counterexample: the claim "the length of the returned string is at
most the limit" fails — an 11-byte text with limit 8 and a space at byte 7
truncates to a 10-byte string. -/
theorem truncate_can_exceed_limit :
    Formatter.truncate "abcdefg hij".data 8 = some "abcdefg...".data
      ∧ byteLen "abcdefg...".data = 10 ∧ ¬(10 ≤ 8) := by
  refine ⟨by decide, by decide, by decide⟩

/-- C1 amended: for a single-byte text longer than the limit (with
`3 ≤ limit`, cf. C10), `truncate` cuts before the last space character
among the first `limit` bytes and appends `"..."`, giving a result of
length `lastSpaceIndex + 3`, which is at most `limit + 2` but can exceed
the limit by up to 2; with no space in range it hard-cuts at `limit - 3`
and appends the marker, giving length exactly `limit`. -/
theorem truncate_amended (text : Str) (limit : Nat) (h3 : 3 ≤ limit)
    (hs : ∀ c ∈ text, c.utf8Size = 1) (hlong : limit < byteLen text) :
    ∃ r, Formatter.truncate text limit = some r ∧ byteLen r ≤ limit + 2
      ∧ ((∃ b rest, Formatter.truncate.beforeLastSpace (text.take limit) = some b
            ∧ text.take limit = b ++ ' ' :: rest
            ∧ r = b ++ "...".data ∧ byteLen r = b.length + 3)
          ∨ (Formatter.truncate.beforeLastSpace (text.take limit) = none
            ∧ r = text.take (limit - 3) ++ "...".data ∧ byteLen r = limit)) := by
  have hlt : limit < text.length := by
    rw [byteLen_of_single hs] at hlong
    omega
  have hsub : ∀ n, ∀ c ∈ text.take n, c.utf8Size = 1 :=
    fun n c hc => hs c (List.take_subset n text hc)
  unfold Formatter.truncate
  rw [if_neg (by omega), charPrefixOfBytes_of_single hs (by omega)]
  cases hbls : Formatter.truncate.beforeLastSpace (text.take limit) with
  | some b =>
    obtain ⟨rest, hshape⟩ := beforeLastSpace_shape hbls
    have hblen : b.length + 1 + rest.length = limit := by
      have := congrArg List.length hshape
      simp [List.length_take] at this
      omega
    have hbsingle : ∀ c ∈ b, c.utf8Size = 1 := by
      intro c hc
      exact hsub limit c (by rw [hshape]; simp [hc])
    have hres : byteLen (b ++ "...".data) = b.length + 3 := by
      rw [byteLen_append, byteLen_of_single hbsingle]
      have : byteLen "...".data = 3 := by decide
      omega
    refine ⟨b ++ "...".data, by simp [hbls], by omega,
      Or.inl ⟨b, rest, rfl, hshape, rfl, hres⟩⟩
  | none =>
    have hn3 : ¬ limit < 3 := by omega
    have hres : byteLen (text.take (limit - 3) ++ "...".data) = limit := by
      rw [byteLen_append, byteLen_of_single (hsub (limit - 3))]
      have h1 : byteLen "...".data = 3 := by decide
      have h2 : (text.take (limit - 3)).length = limit - 3 := by
        simp [List.length_take]
        omega
      omega
    refine ⟨text.take (limit - 3) ++ "...".data, ?_, by omega,
      Or.inr ⟨rfl, rfl, hres⟩⟩
    simp [hbls, hn3,
      charPrefixOfBytes_of_single hs (show limit - 3 ≤ text.length by omega)]

/-- C1 witness: the amended theorem applied to a concrete text whose space
falls early enough (the spec's own 4096-limit scenario in miniature). -/
theorem truncate_amended_witness :
    ∃ r, Formatter.truncate "hello world tail".data 13 = some r
      ∧ byteLen r ≤ 13 + 2
      ∧ ((∃ b rest,
            Formatter.truncate.beforeLastSpace ("hello world tail".data.take 13) = some b
            ∧ "hello world tail".data.take 13 = b ++ ' ' :: rest
            ∧ r = b ++ "...".data ∧ byteLen r = b.length + 3)
          ∨ (Formatter.truncate.beforeLastSpace ("hello world tail".data.take 13) = none
            ∧ r = "hello world tail".data.take (13 - 3) ++ "...".data
            ∧ byteLen r = 13)) :=
  truncate_amended "hello world tail".data 13 (by decide) (by decide) (by decide)

/-! ## Lemmas about the MarkupV2 escaping passes -/

/-- A reserved character that is not a formatting marker (not one of the
bold/italic/code toggles `*`, `_`, backtick nor the link delimiters). -/
def plainReserved (c : Char) : Prop :=
  c ∈ MARKDOWN_SPECIAL_CHARS ∧ c ≠ '*' ∧ c ≠ '_' ∧ c ≠ '[' ∧ c ≠ ']'
    ∧ c ≠ '(' ∧ c ≠ ')' ∧ c ≠ btick

instance : DecidablePred plainReserved := fun c => by
  unfold plainReserved
  infer_instance

theorem flatMap_congr_mem {α β : Type} {l : List α} {f g : α → List β}
    (h : ∀ c ∈ l, f c = g c) : l.flatMap f = l.flatMap g := by
  induction l with
  | nil => rfl
  | cons c rest ih =>
    simp only [List.flatMap_cons, h c (by simp),
      ih (fun x hx => h x (by simp [hx]))]

/-- `pre_process_links` leaves any text without `[` unchanged (the link
regex cannot match). -/
theorem pre_process_links_eq_self {l : Str} (h : '[' ∉ l) :
    Formatter.pre_process_links l = l := by
  induction l with
  | nil => rw [Formatter.pre_process_links]
  | cons c rest ih =>
    have hc : c ≠ '[' := fun hcc => h (by simp [hcc])
    rw [Formatter.pre_process_links, if_neg hc]
    exact congrArg (c :: ·) (ih (fun hm => h (by simp [hm])))

/-- `stripLinks` leaves any text without `[` unchanged. -/
theorem stripLinks_eq_self {l : Str} (h : '[' ∉ l) :
    Formatter.stripLinks l = l := by
  induction l with
  | nil => rw [Formatter.stripLinks]
  | cons c rest ih =>
    have hc : c ≠ '[' := fun hcc => h (by simp [hcc])
    rw [Formatter.stripLinks, if_neg hc]
    exact congrArg (c :: ·) (ih (fun hm => h (by simp [hm])))

/-- The state machine scanning a backslash in the all-false state: the
backslash is not reserved, so it is emitted unchanged. -/
theorem scanMd_backslash_step (rest : Str) :
    Formatter.scanMd ('\\' :: rest) Formatter.ScanState.init
      = '\\' :: Formatter.scanMd rest Formatter.ScanState.init := by
  have h0 : ('\\' : Char) ≠ btick := by decide
  have h1 : ('\\' : Char) ≠ '*' := by decide
  have h2 : ('\\' : Char) ≠ '_' := by decide
  have h3 : ('\\' : Char) ≠ '[' := by decide
  have h4 : ('\\' : Char) ≠ ']' := by decide
  have h5 : ('\\' : Char) ≠ '(' := by decide
  have h6 : ('\\' : Char) ≠ ')' := by decide
  have h7 : ('\\' : Char) ∉ MARKDOWN_SPECIAL_CHARS := by decide
  rw [Formatter.scanMd]
  simp [h0, h1, h2, h3, h4, h5, h6, h7]

/-- The state machine scanning a plain reserved character in the all-false
state escapes it with exactly one backslash. -/
theorem scanMd_plain_step {c : Char} (rest : Str) (hc : plainReserved c) :
    Formatter.scanMd (c :: rest) Formatter.ScanState.init
      = '\\' :: c :: Formatter.scanMd rest Formatter.ScanState.init := by
  obtain ⟨hmem, h1, h2, h3, h4, h5, h6, h7⟩ := hc
  rw [Formatter.scanMd]
  simp [Formatter.ScanState.init, h1, h2, h3, h4, h5, h6, h7, hmem]

/-- The state machine over a string of backslashes and plain reserved
characters, from the all-false state: each reserved character receives one
backslash, everything else passes through. -/
theorem scanMd_plain (l : Str)
    (hl : ∀ c ∈ l, c = '\\' ∨ plainReserved c) :
    Formatter.scanMd l Formatter.ScanState.init
      = l.flatMap
          (fun c => if c ∈ MARKDOWN_SPECIAL_CHARS then ['\\', c] else [c]) := by
  induction l with
  | nil => rw [Formatter.scanMd]; rfl
  | cons c rest ih =>
    have hrest : ∀ x ∈ rest, x = '\\' ∨ plainReserved x :=
      fun x hx => hl x (by simp [hx])
    rcases hl c (by simp) with hbs | hres
    · subst hbs
      have h7 : ('\\' : Char) ∉ MARKDOWN_SPECIAL_CHARS := by decide
      rw [scanMd_backslash_step, ih hrest]
      simp [h7]
    · rw [scanMd_plain_step rest hres, ih hrest]
      simp [hres.1]

theorem flatMap_assoc' {α β γ : Type} (l : List α) (f : α → List β)
    (g : β → List γ) :
    (l.flatMap f).flatMap g = l.flatMap (fun a => (f a).flatMap g) := by
  induction l with
  | nil => rfl
  | cons c rest ih => simp [List.flatMap_cons, List.flatMap_append, ih]

/-- Shared helper: on a string of plain reserved characters the whole
`escape_markdown_v2` pass prefixes every character with exactly one
backslash. -/
theorem escape_plain (x : Str) (hx : ∀ c ∈ x, plainReserved c) :
    Formatter.escape_markdown_v2 x = .ok (x.flatMap (fun c => ['\\', c])) := by
  unfold Formatter.escape_markdown_v2
  by_cases hx0 : x = []
  · subst hx0; rfl
  · rw [if_neg hx0]
    have hnb : '[' ∉ x := fun hm => ((hx _ hm).2.2.2.1) rfl
    rw [pre_process_links_eq_self hnb, scanMd_plain x (fun c hc => Or.inr (hx c hc))]
    congr 1
    exact flatMap_congr_mem (fun c hc => by simp [(hx c hc).1])

/-- Shared helper: the characters of a plain-reserved string escaped once
are backslashes and plain reserved characters. -/
theorem escaped_chars (x : Str) (hx : ∀ c ∈ x, plainReserved c) :
    ∀ c ∈ x.flatMap (fun c => ['\\', c]), c = '\\' ∨ plainReserved c := by
  intro c hc
  rw [List.mem_flatMap] at hc
  obtain ⟨a, ha, hcc⟩ := hc
  simp at hcc
  rcases hcc with rfl | rfl
  · exact Or.inl rfl
  · exact Or.inr (hx _ ha)

/-! ## C4: idempotence of escaping -/

/-- C4 counterexample: escaping already-escaped text does double-backslash —
the inner pass turns `.` into `\.`, and the outer pass places a second
backslash before the already-escaped `.` (backslash itself is not in the
reserved set, so the `.` is still seen as an unescaped reserved character). -/
theorem escape_markdown_v2_not_idempotent :
    Formatter.escape_markdown_v2 ['.'] = .ok ['\\', '.']
      ∧ Formatter.escape_markdown_v2 ['\\', '.'] = .ok ['\\', '\\', '.']
      ∧ (['\\', '\\', '.'] : Str) ≠ ['\\', '.'] := by
  refine ⟨by decide, by decide, by decide⟩

/-- C4 amended: `escape_markdown_v2` is not idempotent on reserved
characters.  For any string of plain reserved characters (reserved, not a
formatting marker) the first pass emits one backslash before each
character, and a second pass inserts one more backslash before each
reserved character, because the backslash is not itself reserved and the
character still matches the escape rule. -/
theorem escape_markdown_v2_double_escape (x : Str)
    (hx : ∀ c ∈ x, plainReserved c) :
    Formatter.escape_markdown_v2 x = .ok (x.flatMap (fun c => ['\\', c]))
      ∧ Formatter.escape_markdown_v2 (x.flatMap (fun c => ['\\', c]))
        = .ok (x.flatMap (fun c => ['\\', '\\', c])) := by
  refine ⟨escape_plain x hx, ?_⟩
  by_cases hx0 : x = []
  · subst hx0
    rfl
  · have hne : x.flatMap (fun c => ['\\', c]) ≠ [] := by
      cases x with
      | nil => exact absurd rfl hx0
      | cons a as => simp
    unfold Formatter.escape_markdown_v2
    rw [if_neg hne]
    have hnb : '[' ∉ x.flatMap (fun c => ['\\', c]) := by
      intro hm
      rcases escaped_chars x hx _ hm with h | h
      · exact absurd h (by decide)
      · exact h.2.2.2.1 rfl
    rw [pre_process_links_eq_self hnb, scanMd_plain _ (escaped_chars x hx)]
    rw [flatMap_assoc']
    congr 1
    refine flatMap_congr_mem (fun c hc => ?_)
    have hsp : c ∈ MARKDOWN_SPECIAL_CHARS := (hx c hc).1
    have hbs : ('\\' : Char) ∉ MARKDOWN_SPECIAL_CHARS := by decide
    simp [hsp, hbs]

/-- C4 witness: the amended theorem applied at `"~."`. -/
theorem escape_markdown_v2_double_escape_witness :
    Formatter.escape_markdown_v2 ['~', '.'] = .ok ['\\', '~', '\\', '.']
      ∧ Formatter.escape_markdown_v2 ['\\', '~', '\\', '.']
        = .ok ['\\', '\\', '~', '\\', '\\', '.'] :=
  escape_markdown_v2_double_escape ['~', '.'] (by decide)

/-! ## C5: round-trip with strip_markdown -/

/-- C5 counterexample: `strip_markdown` does not remove backslashes, so the
claimed round trip fails already on the one-character input `"."`. -/
theorem strip_markdown_keeps_backslashes :
    Formatter.escape_markdown_v2 ['.'] = .ok ['\\', '.']
      ∧ Formatter.strip_markdown ['\\', '.'] = ['\\', '.']
      ∧ (['\\', '.'] : Str) ≠ ['.'] := by
  refine ⟨by decide, by decide, by decide⟩

/-- C5 amended: on inputs of plain reserved characters (no formatting
markers) `escape_markdown_v2` prefixes every reserved character with exactly
one backslash, but `strip_markdown` applied to the escaped string returns it
unchanged (it removes only `*`, `_`, backtick and link spans, never
backslashes), so the round trip recovers the escaped string, not the
original. -/
theorem escape_reserved_roundtrip_amended (x : Str)
    (hx : ∀ c ∈ x, plainReserved c) :
    Formatter.escape_markdown_v2 x = .ok (x.flatMap (fun c => ['\\', c]))
      ∧ Formatter.strip_markdown (x.flatMap (fun c => ['\\', c]))
        = x.flatMap (fun c => ['\\', c]) := by
  refine ⟨escape_plain x hx, ?_⟩
  unfold Formatter.strip_markdown
  have hfilter : (x.flatMap (fun c => ['\\', c])).filter
      (fun c => ¬(c = '*' ∨ c = '_' ∨ c = btick)) = x.flatMap (fun c => ['\\', c]) := by
    rw [List.filter_eq_self]
    intro a ha
    rcases escaped_chars x hx a ha with h | h
    · subst h; decide
    · obtain ⟨_, h1, h2, _, _, _, _, h7⟩ := h
      simp [h1, h2, h7]
  rw [hfilter]
  refine stripLinks_eq_self ?_
  intro hm
  rcases escaped_chars x hx _ hm with h | h
  · exact absurd h (by decide)
  · exact h.2.2.2.1 rfl

/-- C5 witness: the amended theorem applied at `"~.!"`. -/
theorem escape_reserved_roundtrip_amended_witness :
    Formatter.escape_markdown_v2 ['~', '.', '!']
        = .ok ['\\', '~', '\\', '.', '\\', '!']
      ∧ Formatter.strip_markdown ['\\', '~', '\\', '.', '\\', '!']
        = ['\\', '~', '\\', '.', '\\', '!'] :=
  escape_reserved_roundtrip_amended ['~', '.', '!'] (by decide)

/-! ## C7: verbatim emission inside code contexts -/

/-- C7 counterexample: characters inside a fenced block are *not* always
emitted with no backslash by `escape_markdown_v2` — the link pre-pass runs
before any context tracking and inserts backslashes into a complete
`[label](target)` span that lies inside the fence. -/
theorem code_span_link_prepass_escapes :
    Formatter.escape_markdown_v2 "```[a.b](c!d)```".data
        = .ok "```[a\\.b](c\\!d)```".data
      ∧ List.count '\\' "```[a.b](c!d)```".data = 0
      ∧ List.count '\\' "```[a\\.b](c\\!d)```".data = 2 := by
  refine ⟨by decide, by decide, by decide⟩

/-- C7 amended: the character scan itself emits every non-backtick character
verbatim while `in_code_block` or `in_pre_block` is set — no backslash is
inserted and no state is toggled (the continuation runs in the same state);
`escape_markdown_v2` as a whole behaves this way only when no complete link
span lies inside the code context (the link pre-pass is context-blind), as
in the spec's fenced-block example, which passes through unchanged. -/
theorem code_context_verbatim_amended :
    (∀ (c : Char) (rest : Str) (st : Formatter.ScanState), c ≠ btick →
        (st.in_code_block = true ∨ st.in_pre_block = true) →
        Formatter.scanMd (c :: rest) st = c :: Formatter.scanMd rest st)
      ∧ Formatter.escape_markdown_v2 "```like *this* ```".data
          = .ok "```like *this* ```".data := by
  constructor
  · intro c rest st hc hsh
    rw [Formatter.scanMd, if_neg hc]
    rcases hsh with h | h <;> simp [h]
  · decide

/-- C7 witness: a reserved `*` scanned inside an inline-code span is emitted
verbatim with unchanged state. -/
theorem code_context_verbatim_amended_witness :
    Formatter.scanMd ('*' :: "x".data) ⟨true, false, false, false, false, false⟩
      = '*' :: Formatter.scanMd "x".data ⟨true, false, false, false, false, false⟩ :=
  code_context_verbatim_amended.1 '*' "x".data
    ⟨true, false, false, false, false, false⟩ (by decide) (Or.inl rfl)

/-! ## C3: doubled wire-level POST in send_message_request -/

/-- C3: whenever the initial POST succeeds at the transport level,
`send_message_request` issues the POST twice with identical parameters to
the sendMessage endpoint (the first response's body is read and discarded),
and the returned outcome is computed from the second response only. -/
theorem send_message_request_double_post
    (wire : Nat → WireOutcome) (k : Nat)
    (bot_token chat_id text : Str) (parse_mode : Option Str) (dwp : Bool)
    (s1 : Nat) (b1 : Option Str) (j1 : Except Str Response)
    (h1 : wire k = .resp s1 b1 j1) :
    ∃ p : WireRequest,
      (Client.send_message_request wire k bot_token chat_id text
          parse_mode dwp).2.1 = [p, p]
      ∧ p.url = "https://api.telegram.org/bot".data ++ bot_token
          ++ "/sendMessage".data
      ∧ p.chat_id = chat_id ∧ p.text = text
      ∧ (Client.send_message_request wire k bot_token chat_id text
          parse_mode dwp).2.2 = k + 2
      ∧ (Client.send_message_request wire k bot_token chat_id text
          parse_mode dwp).1
          = (match wire (k + 1) with
             | .sendErr e => .error (.Http e)
             | .resp s2 b2 j2 => Client.handle_response s2 b2 j2) := by
  simp only [Client.send_message_request, h1]
  cases h2 : wire (k + 1) with
  | sendErr e => exact ⟨_, rfl, rfl, rfl, rfl, rfl, rfl⟩
  | resp s2 b2 j2 => exact ⟨_, rfl, rfl, rfl, rfl, rfl, rfl⟩

/-- C3 witness: the theorem applied to a concrete oracle whose first POST
succeeds. -/
theorem send_message_request_double_post_witness :
    ∃ p : WireRequest,
      (Client.send_message_request
          (fun _ => .resp 200 (some []) (.ok ⟨true, none, none⟩)) 0
          "t".data "c".data "m".data none true).2.1 = [p, p]
      ∧ p.url = "https://api.telegram.org/bot".data ++ "t".data
          ++ "/sendMessage".data
      ∧ p.chat_id = "c".data ∧ p.text = "m".data
      ∧ (Client.send_message_request
          (fun _ => .resp 200 (some []) (.ok ⟨true, none, none⟩)) 0
          "t".data "c".data "m".data none true).2.2 = 0 + 2
      ∧ (Client.send_message_request
          (fun _ => .resp 200 (some []) (.ok ⟨true, none, none⟩)) 0
          "t".data "c".data "m".data none true).1
          = (match (fun (_ : Nat) => WireOutcome.resp 200 (some [])
                (.ok ⟨true, none, none⟩)) (0 + 1) with
             | .sendErr e => .error (.Http e)
             | .resp s2 b2 j2 => Client.handle_response s2 b2 j2) :=
  send_message_request_double_post
    (fun _ => .resp 200 (some []) (.ok ⟨true, none, none⟩)) 0
    "t".data "c".data "m".data none true 200 (some [])
    (.ok ⟨true, none, none⟩) rfl

/-! ## C6: invalid dialect handling -/

/-- C6 counterexample: with an invalid dialect in the settings default
(`default_parse_mode = "Banana"`), the delivery does not silently proceed
under PlainText — `validate` rejects the configuration and the delivery
fails immediately with a configuration error, performing no submission. -/
theorem invalid_default_parse_mode_fails :
    Client.send_message
      { bot_token := some "t".data, chat_id := some "c".data,
        default_parse_mode := some "Banana".data,
        disable_web_page_preview := true,
        message_pre := none, message_suffix := none,
        formatting_options := FormattingOptions.default,
        client_options := ClientOptions.default }
      (fun _ => .sendErr []) "hi".data []
      = some (.error (.Configuration
          "Invalid parse mode: 'Banana'. Must be 'MarkdownV2' or 'HTML'".data),
          []) := by
  decide

/-- C6 amended: the silent PlainText degradation holds only for the per-call
override path.  (i) An invalid settings default is caught by `validate` and
returned as a configuration error before any submission; (ii) an invalid
per-call override is cleared to `none`; (iii) a delivery with a cleared mode
proceeds, its first submission being the plain-text-formatted message with
`parse_mode` argument `none`; (iv) a `none` mode is serialized as the empty
string on the wire, never as the invalid value. -/
theorem invalid_parse_mode_fallback_amended :
    (∀ (cfg : Configuration) (wire : Nat → WireOutcome) (message : Str)
        (options : List (Str × Str)) (tok mode : Str),
        cfg.bot_token = some tok →
        cfg.default_parse_mode = some mode →
        (mode = [] ∨ (mode ≠ "MarkdownV2".data ∧ mode ≠ "HTML".data)) →
        Client.send_message cfg wire message options
          = some (.error (.Configuration ("Invalid parse mode: '".data ++ mode
              ++ "'. Must be 'MarkdownV2' or 'HTML'".data)), []))
    ∧ (∀ (cfg : Configuration) (options : List (Str × Str)) (v : Str),
        findOption options "parse_mode" = some v →
        v ≠ "MarkdownV2".data → v ≠ "HTML".data → v ≠ [] →
        Client.resolve_parse_mode cfg options = none)
    ∧ (∀ (cfg : Configuration) (wire : Nat → WireOutcome) (message : Str)
        (options : List (Str × Str)) (fm : Str),
        cfg.validate = .ok () →
        Client.resolve_chat_id cfg options ≠ [] →
        Client.resolve_parse_mode cfg options = none →
        Formatter.format cfg message
          (some (Client.plain_options
            (Client.extract_formatting_options options cfg.formatting_options)))
          = some fm →
        fm ≠ [] →
        ∃ out attempts,
          Client.send_message cfg wire message options = some (out, attempts)
            ∧ attempts.head? = some ⟨fm, none⟩)
    ∧ (∀ (wire : Nat → WireOutcome) (k : Nat) (tok chat fm : Str) (dwp : Bool),
        ∀ p ∈ (Client.send_message_request wire k tok chat fm none dwp).2.1,
          p.parse_mode = some []) := by
  refine ⟨?_, ?_, ?_, ?_⟩
  · intro cfg wire message options tok mode hbt hdpm hinv
    have hval : cfg.validate = .error (.Configuration
        ("Invalid parse mode: '".data ++ mode
          ++ "'. Must be 'MarkdownV2' or 'HTML'".data)) := by
      simp only [Configuration.validate, hbt, hdpm]
      rw [if_pos hinv]
    simp only [Client.send_message, hval]
  · intro cfg options v hfind h1 h2 h3
    unfold Client.resolve_parse_mode
    rw [hfind]
    simp only [Option.or]
    rw [if_pos ⟨h1, h2, h3⟩]
  · intro cfg wire message options fm hval hchat hpm hfmt hfm
    have hbt : ∃ tok, cfg.bot_token = some tok := by
      unfold Configuration.validate at hval
      cases hb : cfg.bot_token with
      | none => rw [hb] at hval; exact absurd hval (by simp)
      | some tok => exact ⟨tok, rfl⟩
    obtain ⟨tok, hbt⟩ := hbt
    have hffm : Client.format_for_mode cfg message
        (Client.extract_formatting_options options cfg.formatting_options)
        none = some fm := by
      simp only [Client.format_for_mode]
      rw [if_neg (by simp), if_neg (by simp)]
      exact hfmt
    simp only [Client.send_message, hval, hbt, hpm, hffm, hchat, hfm,
      if_false, ite_false]
    cases (Client.send_message_request wire 0 tok
        (Client.resolve_chat_id cfg options) fm none
        (Client.resolve_preview cfg options)).1 with
    | ok r => exact ⟨_, _, rfl, rfl⟩
    | error e =>
      dsimp only
      split
      · rw [hfmt]
        exact ⟨_, _, rfl, rfl⟩
      · exact ⟨_, _, rfl, rfl⟩
  · intro wire k tok chat fm dwp p hp
    simp only [Client.send_message_request] at hp
    cases h1 : wire k with
    | sendErr e =>
      rw [h1] at hp
      simp only [List.mem_cons, List.not_mem_nil, or_false] at hp
      subst hp
      rfl
    | resp s1 b1 j1 =>
      rw [h1] at hp
      cases h2 : wire (k + 1) with
      | sendErr e =>
        rw [h2] at hp
        simp only [List.mem_cons, List.not_mem_nil, or_false] at hp
        rcases hp with hp | hp <;> (subst hp; rfl)
      | resp s2 b2 j2 =>
        rw [h2] at hp
        simp only [List.mem_cons, List.not_mem_nil, or_false] at hp
        rcases hp with hp | hp <;> (subst hp; rfl)

/-- C6 witness: case (iii) of the amended theorem applied to a concrete
delivery whose `parse_mode` override is the unknown value `Banana`. -/
theorem invalid_parse_mode_fallback_amended_witness :
    ∃ out attempts,
      Client.send_message
        { bot_token := some "t".data, chat_id := some "c".data,
          default_parse_mode := some "MarkdownV2".data,
          disable_web_page_preview := true,
          message_pre := none, message_suffix := none,
          formatting_options := FormattingOptions.default,
          client_options := ClientOptions.default }
        (fun _ => .resp 200 (some []) (.ok ⟨true, none, none⟩))
        "hi".data [("parse_mode".data, "Banana".data)]
        = some (out, attempts)
      ∧ attempts.head? = some ⟨"hi".data, none⟩ :=
  invalid_parse_mode_fallback_amended.2.2.1
    { bot_token := some "t".data, chat_id := some "c".data,
      default_parse_mode := some "MarkdownV2".data,
      disable_web_page_preview := true,
      message_pre := none, message_suffix := none,
      formatting_options := FormattingOptions.default,
      client_options := ClientOptions.default }
    (fun _ => .resp 200 (some []) (.ok ⟨true, none, none⟩))
    "hi".data [("parse_mode".data, "Banana".data)] "hi".data
    (by decide) (by decide) (by decide) (by decide) (by decide)

/-! ## C9: email obfuscation -/

theorem splitOnChar_not_mem {sep : Char} {a : Str} (ha : sep ∉ a) :
    Formatter.splitOnChar sep a = [a] := by
  induction a with
  | nil => rfl
  | cons c cs ih =>
    have hc : c ≠ sep := fun hcc => ha (by simp [hcc])
    rw [Formatter.splitOnChar, if_neg hc, ih (fun hm => ha (by simp [hm]))]

theorem splitOnChar_append {sep : Char} {a b : Str} (ha : sep ∉ a) :
    Formatter.splitOnChar sep (a ++ sep :: b)
      = a :: Formatter.splitOnChar sep b := by
  induction a with
  | nil => simp [Formatter.splitOnChar]
  | cons c cs ih =>
    have hc : c ≠ sep := fun hcc => ha (by simp [hcc])
    rw [List.cons_append, Formatter.splitOnChar, if_neg hc,
      ih (fun hm => ha (by simp [hm]))]

theorem takeWhile_append_cons {p : Char → Bool} {a : Str} {c : Char} (b : Str)
    (ha : ∀ x ∈ a, p x = true) (hc : p c = false) :
    (a ++ c :: b).takeWhile p = a ∧ (a ++ c :: b).dropWhile p = c :: b := by
  induction a with
  | nil => simp [List.takeWhile, List.dropWhile, hc]
  | cons x xs ih =>
    have hx : p x = true := ha x (by simp)
    obtain ⟨ih1, ih2⟩ := ih (fun y hy => ha y (by simp [hy]))
    constructor
    · simp [List.takeWhile_cons, hx, ih1]
    · simp [List.dropWhile_cons, hx, ih2]

/-- C9: for every match of the email pattern found in the input (writing
`u` for its local part, the run before the `@`, and `dom` for its domain,
the run after), the replacement closure keeps the domain and, when the
local part is longer than 3 characters, replaces it by its first 3
characters, a literal ellipsis `...` and its last character; a local part
of at most 3 characters is returned unmodified.  The spec's two examples
evaluate accordingly on the whole `obfuscate_emails` pass. -/
theorem obfuscate_emails_spec :
    (∀ (prev : Option Char) (l m rest : Str),
        Formatter.matchEmail prev l = some (m, rest) →
        m = m.takeWhile (fun c => c ≠ '@')
            ++ '@' :: (m.dropWhile (fun c => c ≠ '@')).tail
          ∧ '@' ∉ (m.dropWhile (fun c => c ≠ '@')).tail
          ∧ (3 < (m.takeWhile (fun c => c ≠ '@')).length →
              Formatter.obfuscateMatch m
                = (m.takeWhile (fun c => c ≠ '@')).take 3
                    ++ '.' :: '.' :: '.' ::
                      ((m.takeWhile (fun c => c ≠ '@')).drop
                          ((m.takeWhile (fun c => c ≠ '@')).length - 1)
                        ++ '@' :: (m.dropWhile (fun c => c ≠ '@')).tail))
          ∧ ((m.takeWhile (fun c => c ≠ '@')).length ≤ 3 →
              Formatter.obfuscateMatch m = m))
      ∧ Formatter.obfuscate_emails "info@example.com".data
          = "inf...o@example.com".data
      ∧ Formatter.obfuscate_emails "ab@x.com".data = "ab@x.com".data := by
  refine ⟨?_, by decide, by decide⟩
  intro prev l m rest h
  obtain ⟨u, dom, hm, _, hu, hloc, hdom⟩ := Formatter.matchEmail_shape h
  have hau : '@' ∉ u := by
    intro hx
    have := hloc '@' hx
    exact absurd this (by decide)
  have hup : ∀ x ∈ u, (fun c => decide (c ≠ '@')) x = true := by
    intro x hx
    simp only [decide_eq_true_eq]
    intro hxx
    subst hxx
    exact hau hx
  have haccess := takeWhile_append_cons (p := fun c => decide (c ≠ '@'))
    (c := '@') dom hup (by simp)
  rw [← hm] at haccess
  obtain ⟨htake, hdrop⟩ := haccess
  rw [htake, hdrop]
  simp only [List.tail_cons]
  have hsplit : Formatter.splitOnChar '@' m = [u, dom] := by
    rw [hm, splitOnChar_append hau, splitOnChar_not_mem hdom]
  refine ⟨hm, hdom, ?_, ?_⟩
  · intro hlen
    unfold Formatter.obfuscateMatch
    rw [hsplit, if_neg (by simp)]
    simp only [List.getD_cons_succ, List.getD_cons_zero]
    rw [if_neg (by omega)]
  · intro hlen
    unfold Formatter.obfuscateMatch
    rw [hsplit, if_neg (by simp)]
    simp only [List.getD_cons_succ, List.getD_cons_zero]
    rw [if_pos hlen]

/-- C9 witness: the per-match transformation applied to the concrete match
covering the whole of `"info@example.com"`. -/
theorem obfuscate_emails_spec_witness :
    Formatter.obfuscateMatch "info@example.com".data
      = "inf...o@example.com".data := by
  have h := (obfuscate_emails_spec.1 none "info@example.com".data
      "info@example.com".data [] (by decide)).2.2.1 (by decide)
  rw [h]
  decide

/-! ## C2: the cascading fallback protocol -/

/-- C2: classification and cascade of `send_message` after a failed first
submission.  The resolved chat id `chat`, formatting options `fo`, parse
mode `pm`, preview flag `dwp` and first formatted message `fm` are named by
equations.  (a) If the first submission fails with an API error whose
description contains `parse_mode`, exactly one follow-up submission is made
— the original message re-formatted from scratch with the plain-text
options, sent with `parse_mode = none` — and its outcome, success or
failure, is returned with no further fallback; (b) otherwise, if the
resolved dialect was `MarkdownV2`, an HTML-tier submission follows (the
original message re-formatted with the HTML options, never the previous
tier output), and if that also fails, a final plain-text-tier submission,
whose outcome is returned; (c) if the resolved dialect was not `MarkdownV2`
and the failure was not dialect-specific, the original error is returned
unchanged after the single submission. -/
theorem send_message_fallback_cascade :
    (∀ (cfg : Configuration) (wire : Nat → WireOutcome) (message : Str)
        (options : List (Str × Str)) (tok chat fm pmsg d : Str)
        (fo : FormattingOptions) (pm : Option Str) (dwp : Bool),
        cfg.validate = .ok () → cfg.bot_token = some tok →
        Client.resolve_chat_id cfg options = chat → chat ≠ [] →
        Client.extract_formatting_options options cfg.formatting_options = fo →
        Client.resolve_parse_mode cfg options = pm →
        Client.resolve_preview cfg options = dwp →
        Client.format_for_mode cfg message fo pm = some fm → fm ≠ [] →
        (Client.send_message_request wire 0 tok chat fm pm dwp).1
          = .error (.Api d) →
        containsSub d "parse_mode".data = true →
        Formatter.format cfg message (some (Client.plain_options fo))
          = some pmsg →
        Client.send_message cfg wire message options
          = some ((Client.send_message_request wire
              (Client.send_message_request wire 0 tok chat fm pm dwp).2.2
              tok chat pmsg none dwp).1,
              [⟨fm, pm⟩, ⟨pmsg, none⟩]))
    ∧ (∀ (cfg : Configuration) (wire : Nat → WireOutcome) (message : Str)
        (options : List (Str × Str)) (tok chat fm hmsg pmsg : Str)
        (fo : FormattingOptions) (pm : Option Str) (dwp : Bool) (e : Error),
        cfg.validate = .ok () → cfg.bot_token = some tok →
        Client.resolve_chat_id cfg options = chat → chat ≠ [] →
        Client.extract_formatting_options options cfg.formatting_options = fo →
        Client.resolve_parse_mode cfg options = pm →
        Client.resolve_preview cfg options = dwp →
        Client.format_for_mode cfg message fo pm = some fm → fm ≠ [] →
        (Client.send_message_request wire 0 tok chat fm pm dwp).1 = .error e →
        (match e with
          | .Api desc => containsSub desc "parse_mode".data
          | _ => false) = false →
        pm = some "MarkdownV2".data →
        Formatter.format cfg message (some (Client.html_options fo))
          = some hmsg →
        Formatter.format cfg message (some (Client.plain_options fo))
          = some pmsg →
        (∀ r, (Client.send_message_request wire
              (Client.send_message_request wire 0 tok chat fm pm dwp).2.2
              tok chat hmsg (some "HTML".data) dwp).1 = .ok r →
            Client.send_message cfg wire message options
              = some (.ok r, [⟨fm, pm⟩, ⟨hmsg, some "HTML".data⟩]))
          ∧ (∀ e2, (Client.send_message_request wire
              (Client.send_message_request wire 0 tok chat fm pm dwp).2.2
              tok chat hmsg (some "HTML".data) dwp).1 = .error e2 →
            Client.send_message cfg wire message options
              = some ((Client.send_message_request wire
                  (Client.send_message_request wire
                    (Client.send_message_request wire 0 tok chat fm pm dwp).2.2
                    tok chat hmsg (some "HTML".data) dwp).2.2
                  tok chat pmsg none dwp).1,
                  [⟨fm, pm⟩, ⟨hmsg, some "HTML".data⟩, ⟨pmsg, none⟩])))
    ∧ (∀ (cfg : Configuration) (wire : Nat → WireOutcome) (message : Str)
        (options : List (Str × Str)) (tok chat fm : Str)
        (fo : FormattingOptions) (pm : Option Str) (dwp : Bool) (e : Error),
        cfg.validate = .ok () → cfg.bot_token = some tok →
        Client.resolve_chat_id cfg options = chat → chat ≠ [] →
        Client.extract_formatting_options options cfg.formatting_options = fo →
        Client.resolve_parse_mode cfg options = pm →
        Client.resolve_preview cfg options = dwp →
        Client.format_for_mode cfg message fo pm = some fm → fm ≠ [] →
        (Client.send_message_request wire 0 tok chat fm pm dwp).1 = .error e →
        (match e with
          | .Api desc => containsSub desc "parse_mode".data
          | _ => false) = false →
        pm ≠ some "MarkdownV2".data →
        Client.send_message cfg wire message options
          = some (.error e, [⟨fm, pm⟩])) := by
  refine ⟨?_, ?_, ?_⟩
  · intro cfg wire message options tok chat fm pmsg d fo pm dwp hval hbt
      hchateq hchat hfo hpmeq hdwp hffm hfm hres1 hd hplain
    simp only [Client.send_message, hval, hbt, hchateq, hchat, hfo, hpmeq,
      hdwp, hffm, hfm, hres1, hd, hplain, if_false, if_true]
  · intro cfg wire message options tok chat fm hmsg pmsg fo pm dwp e hval hbt
      hchateq hchat hfo hpmeq hdwp hffm hfm hres1 hnd hpm hhtml hplain
    subst hpm
    constructor
    · intro r hr2
      simp only [Client.send_message, hval, hbt, hchateq, hchat, hfo, hpmeq,
        hdwp, hffm, hfm, hres1, hnd, hhtml, hr2, Bool.false_eq_true, if_false, if_true]
    · intro e2 hr2
      simp only [Client.send_message, hval, hbt, hchateq, hchat, hfo, hpmeq,
        hdwp, hffm, hfm, hres1, hnd, hhtml, hplain, hr2,
        Bool.false_eq_true, if_false, if_true]
  · intro cfg wire message options tok chat fm fo pm dwp e hval hbt
      hchateq hchat hfo hpmeq hdwp hffm hfm hres1 hnd hpm
    simp only [Client.send_message, hval, hbt, hchateq, hchat, hfo, hpmeq,
      hdwp, hffm, hfm, hres1, hnd, hpm, Bool.false_eq_true, if_false, if_true]

/-- Concrete configuration for the C2 witness. -/
def cfgW : Configuration :=
  { bot_token := some "t".data, chat_id := some "c".data,
    default_parse_mode := some "MarkdownV2".data,
    disable_web_page_preview := true,
    message_pre := none, message_suffix := none,
    formatting_options := FormattingOptions.default,
    client_options := ClientOptions.default }

/-- Concrete wire oracle for the C2 witness: the first submission (two
POSTs) is rejected with a `parse_mode` error, later POSTs succeed. -/
def wireW : Nat → WireOutcome := fun k =>
  if k < 2 then
    .resp 200 (some []) (.ok ⟨false, some "bad parse_mode".data, none⟩)
  else
    .resp 200 (some []) (.ok ⟨true, none, none⟩)

/-- C2 witness: case (a) of the cascade applied to a concrete delivery
rejected with a dialect-specific error. -/
theorem send_message_fallback_cascade_witness :
    Client.send_message cfgW wireW "hi".data []
      = some ((Client.send_message_request wireW
          (Client.send_message_request wireW 0 "t".data "c".data "hi".data
            (some "MarkdownV2".data) true).2.2
          "t".data "c".data "hi".data none true).1,
          [⟨"hi".data, some "MarkdownV2".data⟩, ⟨"hi".data, none⟩]) :=
  send_message_fallback_cascade.1 cfgW wireW "hi".data [] "t".data "c".data
    "hi".data "hi".data "bad parse_mode".data FormattingOptions.default
    (some "MarkdownV2".data) true (by decide) (by decide) (by decide)
    (by decide) (by decide) (by decide) (by decide) (by decide) (by decide)
    (by decide) (by decide) (by decide)

/-! ## C8: link pre-pass and the scan over link spans -/

/-- The per-character escaping the spec ascribes to the URL part of the
link pre-pass (every reserved character except `/ : . -`); proven equal to
the source's sequence of `String::replace` calls below. -/
def urlEscapeChar (c : Char) : Str :=
  if c ∈ MARKDOWN_SPECIAL_CHARS ∧ (c ≠ '/' ∧ c ≠ ':' ∧ c ≠ '.' ∧ c ≠ '-') then
    ['\\', c]
  else [c]

theorem flatMap_id_singleton (l : Str) : l.flatMap (fun c => [c]) = l := by
  induction l with
  | nil => rfl
  | cons c rest ih => simp [List.flatMap_cons, ih]

theorem foldl_replace (chs : List Char) (hnodup : chs.Nodup)
    (hbs : '\\' ∉ chs) (l : Str) :
    chs.foldl
      (fun acc ch =>
        if ch ≠ '/' ∧ ch ≠ ':' ∧ ch ≠ '.' ∧ ch ≠ '-' then
          Formatter.replaceCharEsc ch acc
        else acc) l
    = l.flatMap
        (fun c =>
          if c ∈ chs ∧ (c ≠ '/' ∧ c ≠ ':' ∧ c ≠ '.' ∧ c ≠ '-') then ['\\', c]
          else [c]) := by
  induction chs generalizing l with
  | nil =>
    simp only [List.foldl_nil]
    rw [show (fun c : Char =>
        if c ∈ ([] : List Char) ∧ (c ≠ '/' ∧ c ≠ ':' ∧ c ≠ '.' ∧ c ≠ '-')
        then ['\\', c] else [c]) = fun c => [c] from ?_]
    · exact (flatMap_id_singleton l).symm
    · funext c
      simp
  | cons ch chs ih =>
    have hnodup' : chs.Nodup := (List.nodup_cons.mp hnodup).2
    have hch : ch ∉ chs := (List.nodup_cons.mp hnodup).1
    have hbs' : '\\' ∉ chs := fun hm => hbs (by simp [hm])
    have hbsch : ch ≠ '\\' := fun hcc => hbs (by simp [hcc])
    rw [List.foldl_cons]
    by_cases hcond : ch ≠ '/' ∧ ch ≠ ':' ∧ ch ≠ '.' ∧ ch ≠ '-'
    · rw [if_pos hcond, ih hnodup' hbs', Formatter.replaceCharEsc,
        flatMap_assoc']
      refine flatMap_congr_mem (fun c hc => ?_)
      by_cases hceq : c = ch
      · subst hceq
        rw [if_pos rfl]
        simp only [List.flatMap_cons, List.flatMap_nil]
        rw [if_neg (by simp [hbs']), if_neg (fun hmem => hch hmem.1),
          if_pos ⟨List.mem_cons_self c chs, hcond⟩]
        simp
      · rw [if_neg hceq]
        simp only [List.flatMap_cons, List.flatMap_nil, List.append_nil]
        by_cases hcm : c ∈ chs ∧ (c ≠ '/' ∧ c ≠ ':' ∧ c ≠ '.' ∧ c ≠ '-')
        · rw [if_pos hcm, if_pos ⟨by simp [hcm.1], hcm.2⟩]
        · rw [if_neg hcm, if_neg (fun hmem => hcm ⟨by
            rcases List.mem_cons.mp hmem.1 with h | h
            · exact absurd h hceq
            · exact h, hmem.2⟩)]
    · rw [if_neg hcond, ih hnodup' hbs']
      refine flatMap_congr_mem (fun c hc => ?_)
      by_cases hceq : c = ch
      · subst hceq
        rw [if_neg (fun hmem => hch hmem.1), if_neg (fun hmem => hcond hmem.2)]
      · by_cases hcm : c ∈ chs ∧ (c ≠ '/' ∧ c ≠ ':' ∧ c ≠ '.' ∧ c ≠ '-')
        · rw [if_pos hcm, if_pos ⟨by simp [hcm.1], hcm.2⟩]
        · rw [if_neg hcm, if_neg (fun hmem => hcm ⟨by
            rcases List.mem_cons.mp hmem.1 with h | h
            · exact absurd h hceq
            · exact h, hmem.2⟩)]

/-- The source's URL escaping (fold of `String::replace` over the reserved
characters, skipping `/ : . -`) equals the per-character map. -/
theorem escapeUrl_eq_flatMap (url : Str) :
    Formatter.escapeUrl url = url.flatMap urlEscapeChar := by
  rw [Formatter.escapeUrl, foldl_replace MARKDOWN_SPECIAL_CHARS
    (by decide) (by decide) url]
  rfl

theorem parseLink_span {lab tgt : Str} (hlab : lab ≠ []) (hnb : ']' ∉ lab)
    (htgt : tgt ≠ []) (hnp : ')' ∉ tgt) :
    Formatter.parseLink (lab ++ ']' :: '(' :: (tgt ++ [')']))
      = some (lab, tgt, []) := by
  obtain ⟨htake1, hdrop1⟩ :=
    takeWhile_append_cons (p := fun c => decide (c ≠ ']')) (c := ']')
      ('(' :: (tgt ++ [')']))
      (fun x hx => by
        simp only [decide_eq_true_eq]
        intro hxx
        subst hxx
        exact hnb hx)
      (by simp)
  obtain ⟨htake2, hdrop2⟩ :=
    takeWhile_append_cons (p := fun c => decide (c ≠ ')')) (c := ')')
      ([] : Str)
      (fun x hx => by
        simp only [decide_eq_true_eq]
        intro hxx
        subst hxx
        exact hnp hx)
      (by simp)
  unfold Formatter.parseLink
  rw [htake1, hdrop1, if_neg hlab]
  simp only []
  rw [htake2, hdrop2, if_neg htgt]
  simp

theorem scanMd_label_step (c : Char) (rest : Str) (st : Formatter.ScanState)
    (hlt : st.in_link_text = true) (hpre : st.in_pre_block = false)
    (hcode : st.in_code_block = false) (hc1 : c ≠ ']') (hc2 : c ≠ btick) :
    ∃ st', Formatter.scanMd (c :: rest) st = c :: Formatter.scanMd rest st'
      ∧ st'.in_link_text = true ∧ st'.in_pre_block = false
      ∧ st'.in_code_block = false := by
  rw [Formatter.scanMd, if_neg hc2]
  split_ifs <;>
    first
      | (rename_i hcontra hinner; exact absurd hcontra.1 hc1)
      | (rename_i hcontra;
          exact Bool.noConfusion (hlt.symm.trans hcontra.2.2.2.2.1))
      | exact ⟨st, rfl, hlt, hpre, hcode⟩
      | exact ⟨_, rfl, by simpa using hlt, by simpa using hpre,
          by simpa using hcode⟩

theorem scanMd_link_text (l : Str) (suffix : Str) (st : Formatter.ScanState)
    (hlt : st.in_link_text = true) (hpre : st.in_pre_block = false)
    (hcode : st.in_code_block = false)
    (hl : ∀ c ∈ l, c ≠ ']' ∧ c ≠ btick) :
    ∃ st', Formatter.scanMd (l ++ suffix) st
        = l ++ Formatter.scanMd suffix st'
      ∧ st'.in_link_text = true ∧ st'.in_pre_block = false
      ∧ st'.in_code_block = false := by
  induction l generalizing st with
  | nil => exact ⟨st, rfl, hlt, hpre, hcode⟩
  | cons c cs ih =>
    obtain ⟨hc1, hc2⟩ := hl c (by simp)
    obtain ⟨st1, hstep, h1, h2, h3⟩ :=
      scanMd_label_step c (cs ++ suffix) st hlt hpre hcode hc1 hc2
    obtain ⟨st2, hrec, g1, g2, g3⟩ :=
      ih st1 h1 h2 h3 (fun x hx => hl x (by simp [hx]))
    exact ⟨st2, by rw [List.cons_append, hstep, hrec, List.cons_append],
      g1, g2, g3⟩

theorem mem_escaped_label {lab : Str} (h1 : ']' ∉ lab) (h2 : btick ∉ lab) :
    ∀ x ∈ lab.flatMap Formatter.escapeLabelChar, x ≠ ']' ∧ x ≠ btick := by
  intro x hx
  rw [List.mem_flatMap] at hx
  obtain ⟨c, hc, hxc⟩ := hx
  unfold Formatter.escapeLabelChar at hxc
  by_cases hsp : c ∈ MARKDOWN_SPECIAL_CHARS
  · rw [if_pos hsp] at hxc
    rcases (by simpa using hxc : x = '\\' ∨ x = c) with rfl | rfl
    · exact ⟨by decide, by decide⟩
    · exact ⟨fun h => h1 (h ▸ hc), fun h => h2 (h ▸ hc)⟩
  · rw [if_neg hsp] at hxc
    obtain rfl : x = c := by simpa using hxc
    exact ⟨fun h => h1 (h ▸ hc), fun h => h2 (h ▸ hc)⟩

theorem mem_escaped_url {tgt : Str} (h3 : ')' ∉ tgt) (h4 : btick ∉ tgt) :
    ∀ x ∈ tgt.flatMap urlEscapeChar, x ≠ ')' ∧ x ≠ btick := by
  intro x hx
  rw [List.mem_flatMap] at hx
  obtain ⟨c, hc, hxc⟩ := hx
  unfold urlEscapeChar at hxc
  by_cases hsp : c ∈ MARKDOWN_SPECIAL_CHARS
      ∧ (c ≠ '/' ∧ c ≠ ':' ∧ c ≠ '.' ∧ c ≠ '-')
  · rw [if_pos hsp] at hxc
    rcases (by simpa using hxc : x = '\\' ∨ x = c) with rfl | rfl
    · exact ⟨by decide, by decide⟩
    · exact ⟨fun h => h3 (h ▸ hc), fun h => h4 (h ▸ hc)⟩
  · rw [if_neg hsp] at hxc
    obtain rfl : x = c := by simpa using hxc
    exact ⟨fun h => h3 (h ▸ hc), fun h => h4 (h ▸ hc)⟩

theorem scanMd_url_step (c : Char) (rest : Str) (st : Formatter.ScanState)
    (hurl : st.in_link_url = true) (hpre : st.in_pre_block = false)
    (hcode : st.in_code_block = false) (hc1 : c ≠ ')') (hc2 : c ≠ btick) :
    ∃ st', Formatter.scanMd (c :: rest) st = c :: Formatter.scanMd rest st'
      ∧ st'.in_link_url = true ∧ st'.in_pre_block = false
      ∧ st'.in_code_block = false := by
  rw [Formatter.scanMd, if_neg hc2]
  split_ifs <;>
    first
      | (rename_i hcontra; exact absurd hcontra.1 hc1)
      | (rename_i hcontra;
          exact Bool.noConfusion (hurl.symm.trans hcontra.2.2.2.2.2.1))
      | exact ⟨st, rfl, hurl, hpre, hcode⟩
      | exact ⟨_, rfl, by simpa using hurl, by simpa using hpre,
          by simpa using hcode⟩

theorem scanMd_link_url (l : Str) (suffix : Str) (st : Formatter.ScanState)
    (hurl : st.in_link_url = true) (hpre : st.in_pre_block = false)
    (hcode : st.in_code_block = false)
    (hl : ∀ c ∈ l, c ≠ ')' ∧ c ≠ btick) :
    ∃ st', Formatter.scanMd (l ++ suffix) st
        = l ++ Formatter.scanMd suffix st'
      ∧ st'.in_link_url = true ∧ st'.in_pre_block = false
      ∧ st'.in_code_block = false := by
  induction l generalizing st with
  | nil => exact ⟨st, rfl, hurl, hpre, hcode⟩
  | cons c cs ih =>
    obtain ⟨hc1, hc2⟩ := hl c (by simp)
    obtain ⟨st1, hstep, h1, h2, h3⟩ :=
      scanMd_url_step c (cs ++ suffix) st hurl hpre hcode hc1 hc2
    obtain ⟨st2, hrec, g1, g2, g3⟩ :=
      ih st1 h1 h2 h3 (fun x hx => hl x (by simp [hx]))
    exact ⟨st2, by rw [List.cons_append, hstep, hrec, List.cons_append],
      g1, g2, g3⟩

theorem scanMd_rbracket_lparen (r : Str) (st : Formatter.ScanState)
    (hlt : st.in_link_text = true) (hpre : st.in_pre_block = false)
    (hcode : st.in_code_block = false) :
    Formatter.scanMd (']' :: '(' :: r) st
      = ']' :: '(' :: Formatter.scanMd r
          { st with in_link_text := false, in_link_url := true } := by
  obtain ⟨cb, pb, bold, italic, lt, url⟩ := st
  cases cb <;> cases pb <;> cases bold <;> cases italic <;> cases lt <;>
      cases url <;>
    first
      | exact absurd hlt (by decide)
      | exact absurd hpre (by decide)
      | exact absurd hcode (by decide)
      | (simp +decide [Formatter.scanMd])

theorem scanMd_close_paren (st : Formatter.ScanState)
    (hurl : st.in_link_url = true) (hpre : st.in_pre_block = false)
    (hcode : st.in_code_block = false) :
    Formatter.scanMd [')'] st = [')'] := by
  obtain ⟨cb, pb, bold, italic, lt, url⟩ := st
  cases cb <;> cases pb <;> cases bold <;> cases italic <;> cases lt <;>
      cases url <;>
    first
      | exact absurd hurl (by decide)
      | exact absurd hpre (by decide)
      | exact absurd hcode (by decide)
      | decide

theorem scanMd_open_bracket (r : Str) :
    Formatter.scanMd ('[' :: r) Formatter.ScanState.init
      = '[' :: Formatter.scanMd r ⟨false, false, false, false, true, false⟩ :=
  rfl

/-- C8, counterexample: for the complete span at the end of the input
"`[a`b](x.y)" the pre-pass escapes the backtick of the label (one backslash
in its output), yet the subsequent scan escapes four further characters
inside that span, because the leading backtick of the input has switched the
scanner into code-block state, so the span's `[` never enters link-text
state and `]`, `(`, `.`, `)` all hit the default escaping arm. -/
theorem link_span_scan_can_escape :
    Formatter.pre_process_links "`[a`b](x.y)".data = "`[a\\`b](x.y)".data
    ∧ Formatter.escape_markdown_v2 "`[a`b](x.y)".data
        = .ok "`[a\\`b\\]\\(x\\.y\\)".data
    ∧ List.count '\\' "`[a\\`b](x.y)".data = 1
    ∧ List.count '\\' "`[a\\`b\\]\\(x\\.y\\)".data = 5 :=
  ⟨by decide, by decide, by decide, by decide⟩

theorem pre_process_links_span {lab tgt : Str} (hlab : lab ≠ [])
    (hnb : ']' ∉ lab) (htgt : tgt ≠ []) (hnp : ')' ∉ tgt) :
    Formatter.pre_process_links ('[' :: (lab ++ ']' :: '(' :: (tgt ++ [')'])))
      = '[' :: (lab.flatMap Formatter.escapeLabelChar
          ++ ']' :: '(' :: (tgt.flatMap urlEscapeChar ++ [')'])) := by
  rw [Formatter.pre_process_links, if_pos rfl]
  split
  next lab' tgt' rest' heq =>
    rw [parseLink_span hlab hnb htgt hnp] at heq
    obtain ⟨rfl, rfl, rfl⟩ :
        lab' = lab ∧ tgt' = tgt ∧ rest' = [] := by
      have := Option.some.inj heq
      exact ⟨(congrArg Prod.fst this).symm,
        (congrArg Prod.fst (congrArg Prod.snd this)).symm,
        (congrArg Prod.snd (congrArg Prod.snd this)).symm⟩
    rw [escapeUrl_eq_flatMap, Formatter.pre_process_links]
    simp
  next heq =>
    rw [parseLink_span hlab hnb htgt hnp] at heq
    exact Option.noConfusion heq

/-- C8 (amended): for an input that is a single complete `[label](target)`
span whose label contains neither `]` nor a backtick and whose target
contains neither `)` nor a backtick, the pre-pass escapes every reserved
character of the label and every reserved character of the target except
`/`, `:`, `.`, `-` (first conjunct, with the per-character escapers), and
the subsequent character scan performs no further escaping: the final
output of `escape_markdown_v2` is exactly the pre-pass output (second
conjunct). The unqualified claim over arbitrary spans is refuted by the
counterexample above. -/
theorem link_prepass_span_amended
    (lab tgt : Str) (hlab : lab ≠ []) (htgt : tgt ≠ [])
    (h1 : ']' ∉ lab) (h2 : btick ∉ lab)
    (h3 : ')' ∉ tgt) (h4 : btick ∉ tgt) :
    Formatter.pre_process_links ('[' :: (lab ++ ']' :: '(' :: (tgt ++ [')'])))
      = '[' :: (lab.flatMap Formatter.escapeLabelChar
          ++ ']' :: '(' :: (tgt.flatMap urlEscapeChar ++ [')']))
    ∧ Formatter.escape_markdown_v2
        ('[' :: (lab ++ ']' :: '(' :: (tgt ++ [')'])))
      = .ok (Formatter.pre_process_links
          ('[' :: (lab ++ ']' :: '(' :: (tgt ++ [')'])))) := by
  have hpp := pre_process_links_span hlab h1 htgt h3
  refine ⟨hpp, ?_⟩
  unfold Formatter.escape_markdown_v2
  rw [if_neg (by simp : ¬('[' :: (lab ++ ']' :: '(' :: (tgt ++ [')']))) = [])]
  rw [hpp, scanMd_open_bracket]
  obtain ⟨st1, hl1, i1, i2, i3⟩ :=
    scanMd_link_text (lab.flatMap Formatter.escapeLabelChar)
      (']' :: '(' :: (tgt.flatMap urlEscapeChar ++ [')']))
      ⟨false, false, false, false, true, false⟩ rfl rfl rfl
      (mem_escaped_label h1 h2)
  rw [hl1, scanMd_rbracket_lparen _ st1 i1 i2 i3]
  obtain ⟨st2, hl2, j1, j2, j3⟩ :=
    scanMd_link_url (tgt.flatMap urlEscapeChar) [')']
      { st1 with in_link_text := false, in_link_url := true }
      (by simp) (by simpa using i2) (by simpa using i3)
      (mem_escaped_url h3 h4)
  rw [hl2, scanMd_close_paren st2 j1 j2 j3]

theorem link_prepass_span_amended_witness :
    Formatter.escape_markdown_v2 "[a.b](http://x.y/z-1)".data
      = .ok "[a\\.b](http://x.y/z-1)".data := by
  have h := link_prepass_span_amended "a.b".data "http://x.y/z-1".data
    (by decide) (by decide) (by decide) (by decide) (by decide) (by decide)
  have he : ('[' :: ("a.b".data ++ ']' :: '(' :: ("http://x.y/z-1".data
      ++ [')']))) = "[a.b](http://x.y/z-1)".data := by decide
  rw [he] at h
  rw [h.2]
  decide
